import Mathlib

/-!
Verification of the gomqtt broker `MemoryBackend` (src/backend.go) against its
natural-language specification.

The backend code in src/backend.go is embedded shallowly below.  Two
collaborators of the backend are not part of the sources under verification
and are therefore modelled from the specification document:

* the topic tree `tools.Tree` (spec §4.1, §3 "Topic Tree"): a map from topic
  filters to sets of opaque values with wildcard matching;
* the `MemorySession` type (spec §3 "Session", §4.2): subscriptions, in-flight
  packet stores, packet-id counter, missed-message queue and the
  current-client back reference.

Go pointers to sessions are modelled by a heap: backend state carries an
association list from `SessionRef` to `MemorySession`, and allocation hands
out increasing references.  Per-client `Context` objects (helpers.go) are
modelled as an association list from client id to a record with the two keys
the backend uses, `"clean"` and `"session"`.
-/

namespace Broker

/-- An MQTT message (spec §3): topic, payload bytes, QoS and retain flag. -/
structure Message where
  topic : String
  payload : List Nat
  qos : Nat
  retain : Bool
deriving DecidableEq

/-- A subscription (spec §3): topic filter and granted QoS. -/
structure Subscription where
  topic : String
  qos : Nat
deriving DecidableEq

/-- Clients are identified by an opaque id (a Go `Client` interface value). -/
abbrev ClientId := Nat

/-- A reference into the session heap (a Go `*MemorySession` pointer). -/
abbrev SessionRef := Nat

/-! ### Association-list helpers (Go maps) -/

/-- Lookup in an association list (leftmost binding wins). -/
def alookup {κ β : Type} [DecidableEq κ] : List (κ × β) → κ → Option β
  | [], _ => none
  | (k, v) :: rest, k' => if k = k' then some v else alookup rest k'

/-- Update (or insert) the binding of a key in an association list. -/
def aset {κ β : Type} [DecidableEq κ] : List (κ × β) → κ → β → List (κ × β)
  | [], k, v => [(k, v)]
  | (k', v') :: rest, k, v =>
    if k' = k then (k, v) :: rest else (k', v') :: aset rest k v

/-! ### Topic matching and the topic tree

Modelled from the spec: `tools.Tree` is an external package, not under src/.
Spec §6: filters are `/`-separated levels; `+` matches exactly one non-empty
level; `#` matches zero or more trailing levels and must be final.
-/

/-- Level-wise filter matching (spec §6 topic filter syntax). -/
def levelsMatch : List String → List String → Bool
  | ["#"], _ => true
  | [], [] => true
  | f :: fs, t :: ts => ((f == "+" && !(t == "")) || f == t) && levelsMatch fs ts
  | _, _ => false

/-- Whether a concrete topic matches a topic filter. -/
def topicMatch (filter topic : String) : Bool :=
  levelsMatch (filter.splitOn "/") (topic.splitOn "/")

/-- Modelled from the spec: the topic tree (`tools.Tree`) as an association
list from filter strings to the set of opaque values stored at that filter
(spec §3, §4.1). -/
abbrev Tree (α : Type) := List (String × List α)

/-- `Add(filter, v)`: insert `v` at the filter's node; re-adding is
idempotent (spec §4.1 "Duplicates"). -/
def treeAdd {α : Type} [DecidableEq α] : Tree α → String → α → Tree α
  | [], f, v => [(f, [v])]
  | (g, vs) :: rest, f, v =>
    if g = f then (g, if v ∈ vs then vs else vs ++ [v]) :: rest
    else (g, vs) :: treeAdd rest f v

/-- `Remove(filter, v)`: remove `v` from the filter's node. -/
def treeRemove {α : Type} [DecidableEq α] (t : Tree α) (f : String) (v : α) : Tree α :=
  t.map (fun e => if e.1 = f then (e.1, e.2.filter (fun w => w ≠ v)) else e)

/-- `Clear(v)`: remove `v` from every node of the tree. -/
def treeClear {α : Type} [DecidableEq α] (t : Tree α) (v : α) : Tree α :=
  t.map (fun e => (e.1, e.2.filter (fun w => w ≠ v)))

/-- `Set(topic, v)`: single-value slot used by the retained store. -/
def treeSet {α : Type} : Tree α → String → α → Tree α
  | [], f, v => [(f, [v])]
  | (g, vs) :: rest, f, v =>
    if g = f then (f, [v]) :: rest else (g, vs) :: treeSet rest f v

/-- `Empty(topic)`: drop the single-value slot for a topic. -/
def treeEmpty {α : Type} : Tree α → String → Tree α
  | [], _ => []
  | (g, vs) :: rest, f =>
    if g = f then treeEmpty rest f else (g, vs) :: treeEmpty rest f

/-- `Match(topic)`: values of every stored filter that matches the topic. -/
def treeMatch {α : Type} (t : Tree α) (topic : String) : List α :=
  (t.filter (fun e => topicMatch e.1 topic)).foldr (fun e acc => e.2 ++ acc) []

/-- `Search(filter)`: values of every stored concrete topic matched by the
query filter (used for retained-message lookup). -/
def treeSearch {α : Type} (t : Tree α) (filter : String) : List α :=
  (t.filter (fun e => topicMatch filter e.1)).foldr (fun e acc => e.2 ++ acc) []

/-- All values stored anywhere in the tree. -/
def treeValues {α : Type} (t : Tree α) : List α :=
  t.foldr (fun e acc => e.2 ++ acc) []

/-! ### Sessions

Modelled from the spec: `MemorySession` is defined in a repository file that
is not under src/.  Spec §3 lists its fields; §4.2 its operations.  `Reset`
clears the session's stored protocol state (subscriptions, packet stores,
counter, missed queue); the current-client back reference is managed
explicitly by `Setup` and `Terminate` (spec §4.3, §9).
-/

structure MemorySession where
  subscriptions : List Subscription
  outgoing : List (Nat × Message)
  incoming : List Nat
  counter : Nat
  missedQueue : List Message
  currentClient : Option ClientId
deriving DecidableEq

/-- `NewMemorySession()`: the empty session. -/
def NewMemorySession : MemorySession :=
  { subscriptions := [], outgoing := [], incoming := [], counter := 0
    missedQueue := [], currentClient := none }

/-- Modelled from the spec: `Reset()` clears all stored session state
(spec §4.2). -/
def MemorySession.Reset (s : MemorySession) : MemorySession :=
  { s with subscriptions := [], outgoing := [], incoming := [], counter := 0
           missedQueue := [] }

/-- Modelled from the spec: `SaveSubscription(sub)` stores the subscription,
replacing any subscription with the same filter (spec §4.2, §3:
subscriptions are a mapping filter → granted QoS). -/
def MemorySession.SaveSubscription (s : MemorySession) (sub : Subscription) :
    MemorySession :=
  { s with subscriptions :=
      if s.subscriptions.any (fun x => x.topic = sub.topic) then
        s.subscriptions.map (fun x => if x.topic = sub.topic then sub else x)
      else s.subscriptions ++ [sub] }

/-! ### Client contexts and backend state -/

/-- The per-client `Context` (helpers.go), restricted to the two keys the
backend reads and writes: `"clean"` and `"session"`.  `none` models an
absent key (a failing Go type assertion). -/
structure ClientCtx where
  clean : Option Bool
  session : Option SessionRef
deriving DecidableEq

def ClientCtx.empty : ClientCtx := { clean := none, session := none }

/-- The state of a `MemoryBackend` (src/backend.go lines 79-98), together
with the session heap and the per-client contexts the Go code reaches
through pointers. -/
structure BackendState where
  logins : Option (List (String × String))
  queue : Tree ClientId
  retained : Tree Message
  offlineQueue : Tree SessionRef
  sessions : List (String × SessionRef)
  heap : List (SessionRef × MemorySession)
  nextRef : Nat
  ctx : List (ClientId × ClientCtx)
deriving DecidableEq

/-- `NewMemoryBackend()` with an optional `Logins` map (`none` = nil map). -/
def NewMemoryBackend (logins : Option (List (String × String))) : BackendState :=
  { logins := logins, queue := [], retained := [], offlineQueue := []
    sessions := [], heap := [], nextRef := 0, ctx := [] }

/-- Dereference a session pointer in a heap (total; reachable states only
ever dereference allocated references). -/
def hget (h : List (SessionRef × MemorySession)) (ref : SessionRef) : MemorySession :=
  (alookup h ref).getD NewMemorySession

/-- Dereference a session pointer of a backend state. -/
def getSess (s : BackendState) (ref : SessionRef) : MemorySession :=
  hget s.heap ref

/-- Read a client's context. -/
def ctxGet (s : BackendState) (c : ClientId) : ClientCtx :=
  (alookup s.ctx c).getD ClientCtx.empty

/-! ### Backend operations (src/backend.go) -/

/-- `MemoryBackend.Authenticate` (backend.go lines 102-114): allow all when
no `Logins` map is set, otherwise compare the user's stored password with
the supplied one.  The error result is always nil. -/
def Authenticate (s : BackendState) (user password : String) :
    Bool × Option String :=
  match s.logins with
  | none => (true, none)
  | some logins =>
    match alookup logins user with
    | some pw => (if pw = password then true else false, none)
    | none => (false, none)

/-- Result of a `Setup` call: returned session, resumed flag, error, the
`Close` calls issued to evicted clients, and the missed messages handed to
the asynchronous replay goroutine (drained from the session before the
call returns the cleared state). -/
structure SetupResult where
  session : SessionRef
  resumed : Bool
  err : Option String
  closeCalls : List (ClientId × Bool)
  replay : List Message
deriving DecidableEq

/-- `MemoryBackend.Setup` (backend.go lines 123-180). -/
def Setup (s : BackendState) (client : ClientId) (id : String) (clean : Bool) :
    BackendState × SetupResult :=
  -- save clean flag
  let s1 := { s with ctx := aset s.ctx client { ctxGet s client with clean := some clean } }
  -- return a new temporary session if id is zero
  if id = "" then
    let ref := s1.nextRef
    let s2 := { s1 with
      heap := aset s1.heap ref NewMemorySession
      nextRef := s1.nextRef + 1
      ctx := aset s1.ctx client { ctxGet s1 client with session := some ref } }
    (s2, { session := ref, resumed := false, err := none, closeCalls := [], replay := [] })
  else
    -- retrieve stored session
    match alookup s1.sessions id with
    | some ref =>
      let sess := getSess s1 ref
      -- check if session already has a client
      let closes := match sess.currentClient with
        | some c => [(c, true)]
        | none => []
      -- set current client; reset session if clean is true
      let sess1 := { sess with currentClient := some client }
      let sess2 := if clean then sess1.Reset else sess1
      -- missed messages are drained for the asynchronous replay
      let replay := sess2.missedQueue
      let sess3 := { sess2 with missedQueue := [] }
      let s2 := { s1 with
        heap := aset s1.heap ref sess3
        -- remove the session from the offline queue
        offlineQueue := treeClear s1.offlineQueue ref
        ctx := aset s1.ctx client { ctxGet s1 client with session := some ref } }
      (s2, { session := ref, resumed := true, err := none, closeCalls := closes, replay := replay })
    | none =>
      -- create fresh session and save it
      let ref := s1.nextRef
      let sess := { NewMemorySession with currentClient := some client }
      let s2 := { s1 with
        heap := aset s1.heap ref sess
        nextRef := s1.nextRef + 1
        sessions := aset s1.sessions id ref
        ctx := aset s1.ctx client { ctxGet s1 client with session := some ref } }
      (s2, { session := ref, resumed := false, err := none, closeCalls := [], replay := [] })

/-- `MemoryBackend.Subscribe` (backend.go lines 186-202): add the client to
the subscription queue and return the retained messages matching the
filter.  The error result is always nil. -/
def Subscribe (s : BackendState) (client : ClientId) (topic : String) :
    BackendState × (List Message × Option String) :=
  let s1 := { s with queue := treeAdd s.queue topic client }
  (s1, (treeSearch s1.retained topic, none))

/-- `MemoryBackend.Unsubscribe` (backend.go lines 205-210): remove the
client from the subscription queue.  The error result is always nil. -/
def Unsubscribe (s : BackendState) (client : ClientId) (topic : String) :
    BackendState × Option String :=
  ({ s with queue := treeRemove s.queue topic client }, none)

/-- Append a message to the missed queue of the session stored at `ref`
(`MemorySession.queue(msg)`, reached through the session pointer). -/
def queueMissed (h : List (SessionRef × MemorySession)) (ref : SessionRef)
    (msg : Message) : List (SessionRef × MemorySession) :=
  aset h ref { hget h ref with missedQueue := (hget h ref).missedQueue ++ [msg] }

/-- Result of a `Publish` call: the synchronous `client.Publish` invocations
made before returning, and the (nil) error. -/
structure PublishResult where
  publishCalls : List (ClientId × Message)
  err : Option String
deriving DecidableEq

/-- `MemoryBackend.Publish` (backend.go lines 217-242): process the retain
flag, publish to every matching online client, queue for every matching
offline session. -/
def Publish (s : BackendState) (_client : ClientId) (msg : Message) :
    BackendState × PublishResult :=
  -- check retain flag
  let retained1 :=
    if msg.retain then
      if msg.payload ≠ [] then treeSet s.retained msg.topic msg
      else treeEmpty s.retained msg.topic
    else s.retained
  -- publish directly to clients
  let calls := (treeMatch s.queue msg.topic).map (fun c => (c, msg))
  -- queue for offline clients
  let offline := treeMatch s.offlineQueue msg.topic
  ({ s with retained := retained1
            heap := offline.foldl (fun h ref => queueMissed h ref msg) s.heap },
   { publishCalls := calls, err := none })

/-- `MemoryBackend.Terminate` (backend.go lines 248-285): clear the client
from the subscription queue; if it carries a session, detach it, reset it
when the client connected with clean=true, otherwise register it in the
offline queue under every stored subscription with QoS ≥ 1. -/
def Terminate (s : BackendState) (client : ClientId) :
    BackendState × Option String :=
  -- remove client from queue
  let s1 := { s with queue := treeClear s.queue client }
  match (ctxGet s1 client).session with
  | none => (s1, none)
  | some ref =>
    -- reset stored client
    let sess := { getSess s1 ref with currentClient := none }
    match (ctxGet s1 client).clean with
    | some true =>
      -- client connected with clean=true: reset session
      ({ s1 with heap := aset s1.heap ref sess.Reset }, none)
    | _ =>
      -- otherwise register stored subscriptions with QOS >= 1
      let s2 := { s1 with heap := aset s1.heap ref sess }
      let s3 := { s2 with offlineQueue :=
        (sess.subscriptions.foldl
          (fun q sub => if 1 ≤ sub.qos then treeAdd q sub.topic ref else q)
          s2.offlineQueue) }
      (s3, none)

/-- Modelled from the spec: the remote client (not under src/) saves a
subscription into its bound session when handling SUBSCRIBE (spec §4.4:
"For each subscription: save; call `Backend.Subscribe`"). -/
def SaveSub (s : BackendState) (client : ClientId) (sub : Subscription) :
    BackendState :=
  match (ctxGet s client).session with
  | some ref => { s with heap := aset s.heap ref ((getSess s ref).SaveSubscription sub) }
  | none => s

/-! ### Traces of backend calls -/

/-- One call into the backend.  `saveSub` is the spec-modelled remote-client
subscription save; the other five are the `MemoryBackend` methods. -/
inductive Action where
  | setup (client : ClientId) (id : String) (clean : Bool)
  | subscribe (client : ClientId) (topic : String)
  | unsubscribe (client : ClientId) (topic : String)
  | publish (client : ClientId) (msg : Message)
  | terminate (client : ClientId)
  | saveSub (client : ClientId) (sub : Subscription)
deriving DecidableEq

/-- State effect of one backend call. -/
def applyAction (s : BackendState) : Action → BackendState
  | .setup c id clean => (Setup s c id clean).1
  | .subscribe c t => (Subscribe s c t).1
  | .unsubscribe c t => (Unsubscribe s c t).1
  | .publish c m => (Publish s c m).1
  | .terminate c => (Terminate s c).1
  | .saveSub c sub => SaveSub s c sub

/-- Run a sequence of backend calls. -/
def run (s : BackendState) : List Action → BackendState
  | [] => s
  | a :: rest => run (applyAction s a) rest

/-- Connection-lifecycle discipline of the remote client (spec §4.4, §9):
a client object performs a single `Setup` at CONNECT, saves subscriptions
only while it owns its session, and its `Terminate` runs while it is still
the session's current client. -/
def okAction (s : BackendState) : Action → Bool
  | .setup c _ _ => (alookup s.ctx c).isNone
  | .terminate c =>
    match (ctxGet s c).session with
    | none => true
    | some ref => decide ((getSess s ref).currentClient = some c)
  | .saveSub c _ =>
    match (ctxGet s c).session with
    | none => true
    | some ref => decide ((getSess s ref).currentClient = some c)
  | _ => true

/-- Whether a sequence of calls respects the connection-lifecycle
discipline from the given state. -/
def goodRun (s : BackendState) : List Action → Bool
  | [] => true
  | a :: rest => okAction s a && goodRun (applyAction s a) rest

/-- A sequence of `Publish` calls (claim C2 quantifies over these). -/
def runPubs (s : BackendState) : List (ClientId × Message) → BackendState
  | [] => s
  | p :: rest => runPubs (Publish s p.1 p.2).1 rest

/-- The retained message currently stored for a topic, if any. -/
def retainedAt (s : BackendState) (t : String) : Option Message :=
  match alookup s.retained t with
  | some (m :: _) => some m
  | _ => none

/-- Stated from the spec's words: the last message of the sequence published
on topic `t` with Retain=true, if any. -/
def specLastRetained : List (ClientId × Message) → String → Option Message
  | [], _ => none
  | p :: rest, t =>
    match specLastRetained rest t with
    | some m => some m
    | none => if p.2.retain && p.2.topic == t then some p.2 else none

/-- Modelled from the spec: `Client.Close(clean)` with clean=true suppresses
the client's Will (spec §5 cancellation, §7 client-id collision). -/
def willSuppressed (clean : Bool) : Bool := clean

/-- A state with a persistent session for id "x" (reference 0) owned by
client 1 and holding the subscription ("t", QoS 1). -/
def storedState : BackendState :=
  run (NewMemoryBackend none)
    [Action.setup 1 "x" false, Action.saveSub 1 ⟨"t", 1⟩]

/-- A state with a clean session for id "x" (reference 0) owned by client 1. -/
def cleanState : BackendState :=
  run (NewMemoryBackend none) [Action.setup 1 "x" true]

/-- A lifecycle-respecting trace that leaves session 0 in the offline
queue: a persistent client subscribes with QoS 1 and disconnects. -/
def offlineTrace : List Action :=
  [Action.setup 1 "x" false, Action.saveSub 1 ⟨"t", 1⟩, Action.terminate 1]

/-- Interleaving in which the `Terminate` of an evicted clean-session client
(client 2) runs only after the evicting persistent client (client 3) has
subscribed and disconnected: the delayed `Terminate` resets a session that
is already registered in the offline queue. -/
def staleTerminateTrace : List Action :=
  [Action.setup 2 "x" true, Action.setup 3 "x" false,
   Action.saveSub 3 ⟨"t", 1⟩, Action.subscribe 3 "t",
   Action.terminate 3, Action.terminate 2]

/-! ### Helper lemmas: association lists -/

theorem alookup_aset {κ β : Type} [DecidableEq κ] (l : List (κ × β)) (k k' : κ) (v : β) :
    alookup (aset l k v) k' = if k = k' then some v else alookup l k' := by
  induction l with
  | nil => simp [aset, alookup]
  | cons p rest ih =>
    obtain ⟨pk, pv⟩ := p
    by_cases h : pk = k
    · subst h
      simp only [aset, if_pos rfl, alookup]
      by_cases h' : pk = k' <;> simp [h']
    · simp only [aset, if_neg h, alookup]
      by_cases h' : pk = k'
      · subst h'
        rw [if_pos rfl, if_pos rfl, if_neg (fun hk => h hk.symm)]
      · rw [if_neg h', if_neg h', ih]

theorem alookup_mem {κ β : Type} [DecidableEq κ] {l : List (κ × β)} {k : κ} {v : β}
    (h : alookup l k = some v) : (k, v) ∈ l := by
  induction l with
  | nil => simp [alookup] at h
  | cons p rest ih =>
    obtain ⟨pk, pv⟩ := p
    simp only [alookup] at h
    by_cases hk : pk = k
    · subst hk
      rw [if_pos rfl] at h
      cases h
      exact List.mem_cons_self _ _
    · rw [if_neg hk] at h
      exact List.mem_cons_of_mem _ (ih h)

theorem mem_aset {κ β : Type} [DecidableEq κ] {l : List (κ × β)} {k : κ} {v : β}
    {p : κ × β} (h : p ∈ aset l k v) : p ∈ l ∨ p = (k, v) := by
  induction l with
  | nil => simpa [aset] using h
  | cons q rest ih =>
    obtain ⟨qk, qv⟩ := q
    by_cases hk : qk = k
    · subst hk
      simp only [aset, if_pos rfl] at h
      rcases List.mem_cons.1 h with h | h
      · exact Or.inr h
      · exact Or.inl (List.mem_cons_of_mem _ h)
    · simp only [aset, if_neg hk] at h
      rcases List.mem_cons.1 h with h | h
      · exact Or.inl (h ▸ List.mem_cons_self _ _)
      · rcases ih h with h | h
        · exact Or.inl (List.mem_cons_of_mem _ h)
        · exact Or.inr h

theorem hget_aset (h : List (SessionRef × MemorySession)) (k r : SessionRef)
    (v : MemorySession) : hget (aset h k v) r = if k = r then v else hget h r := by
  simp only [hget, alookup_aset]
  by_cases hk : k = r <;> simp [hk]

/-! ### Helper lemmas: topic-tree values -/

theorem mem_treeValues_treeClear {α : Type} [DecidableEq α] {t : Tree α} {r v : α}
    (h : v ∈ treeValues (treeClear t r)) : v ∈ treeValues t ∧ v ≠ r := by
  induction t with
  | nil => simp [treeClear, treeValues] at h
  | cons e rest ih =>
    simp only [treeClear, treeValues, List.foldr, List.map] at h ⊢
    rcases List.mem_append.1 h with h | h
    · rcases List.mem_filter.1 h with ⟨hmem, hne⟩
      exact ⟨List.mem_append.2 (Or.inl hmem), by simpa using hne⟩
    · obtain ⟨hmem, hne⟩ := ih h
      exact ⟨List.mem_append.2 (Or.inr hmem), hne⟩

theorem not_mem_treeValues_treeClear {α : Type} [DecidableEq α] (t : Tree α) (r : α) :
    r ∉ treeValues (treeClear t r) := fun h => (mem_treeValues_treeClear h).2 rfl

theorem mem_treeValues_treeAdd {α : Type} [DecidableEq α] {t : Tree α} {f : String}
    {w v : α} (h : v ∈ treeValues (treeAdd t f w)) : v ∈ treeValues t ∨ v = w := by
  induction t with
  | nil =>
    simp only [treeAdd, treeValues, List.foldr] at h
    exact Or.inr (by simpa using h)
  | cons e rest ih =>
    obtain ⟨g, vs⟩ := e
    by_cases hg : g = f
    · subst hg
      simp only [treeAdd, if_pos rfl, treeValues, List.foldr] at h
      by_cases hw : w ∈ vs
      · rw [if_pos hw] at h
        exact Or.inl h
      · rw [if_neg hw] at h
        rcases List.mem_append.1 h with h | h
        · rcases List.mem_append.1 h with h | h
          · exact Or.inl (List.mem_append.2 (Or.inl h))
          · simp at h
            exact Or.inr h
        · exact Or.inl (List.mem_append.2 (Or.inr h))
    · simp only [treeAdd, if_neg hg, treeValues, List.foldr] at h ⊢
      rcases List.mem_append.1 h with h | h
      · exact Or.inl (List.mem_append.2 (Or.inl h))
      · rcases ih h with h | h
        · exact Or.inl (List.mem_append.2 (Or.inr h))
        · exact Or.inr h

theorem mem_treeValues_foldAdd {subs : List Subscription} {q0 : Tree SessionRef}
    {ref v : SessionRef}
    (h : v ∈ treeValues (subs.foldl
      (fun q sub => if 1 ≤ sub.qos then treeAdd q sub.topic ref else q) q0)) :
    v ∈ treeValues q0 ∨ (v = ref ∧ ∃ sub ∈ subs, 1 ≤ sub.qos) := by
  induction subs generalizing q0 with
  | nil => exact Or.inl h
  | cons sub rest ih =>
    simp only [List.foldl] at h
    rcases ih h with h' | h'
    · by_cases hq : 1 ≤ sub.qos
      · rw [if_pos hq] at h'
        rcases mem_treeValues_treeAdd h' with h'' | h''
        · exact Or.inl h''
        · exact Or.inr ⟨h'', sub, List.mem_cons_self _ _, hq⟩
      · rw [if_neg hq] at h'
        exact Or.inl h'
    · obtain ⟨hv, sub', hmem, hq⟩ := h'
      exact Or.inr ⟨hv, sub', List.mem_cons_of_mem _ hmem, hq⟩

/-! ### Helper lemmas: missed-queue updates -/

theorem hget_queueMissed (h : List (SessionRef × MemorySession)) (ref r : SessionRef)
    (m : Message) :
    hget (queueMissed h ref m) r =
      if ref = r then { hget h r with missedQueue := (hget h r).missedQueue ++ [m] }
      else hget h r := by
  simp only [queueMissed, hget_aset]
  by_cases hk : ref = r <;> simp [hk]

theorem hget_foldQueue_missedQueue (refs : List SessionRef)
    (h : List (SessionRef × MemorySession)) (r : SessionRef) (m : Message) :
    (hget (refs.foldl (fun h' r' => queueMissed h' r' m) h) r).missedQueue =
      (hget h r).missedQueue ++ List.replicate (refs.count r) m := by
  induction refs generalizing h with
  | nil => simp
  | cons a rest ih =>
    simp only [List.foldl, ih, hget_queueMissed]
    by_cases ha : a = r
    · subst ha
      simp [List.count_cons, List.replicate_succ, List.append_assoc]
    · rw [if_neg ha]
      have : rest.count r + (if a = r then 1 else 0) = rest.count r := by simp [ha]
      simp [List.count_cons, ha]

theorem hget_foldQueue_subscriptions (refs : List SessionRef)
    (h : List (SessionRef × MemorySession)) (r : SessionRef) (m : Message) :
    (hget (refs.foldl (fun h' r' => queueMissed h' r' m) h) r).subscriptions =
      (hget h r).subscriptions := by
  induction refs generalizing h with
  | nil => rfl
  | cons a rest ih =>
    simp only [List.foldl, ih, hget_queueMissed]
    by_cases ha : a = r <;> simp [ha]

theorem hget_foldQueue_currentClient (refs : List SessionRef)
    (h : List (SessionRef × MemorySession)) (r : SessionRef) (m : Message) :
    (hget (refs.foldl (fun h' r' => queueMissed h' r' m) h) r).currentClient =
      (hget h r).currentClient := by
  induction refs generalizing h with
  | nil => rfl
  | cons a rest ih =>
    simp only [List.foldl, ih, hget_queueMissed]
    by_cases ha : a = r <;> simp [ha]

theorem hget_foldQueue_outgoing (refs : List SessionRef)
    (h : List (SessionRef × MemorySession)) (r : SessionRef) (m : Message) :
    (hget (refs.foldl (fun h' r' => queueMissed h' r' m) h) r).outgoing =
      (hget h r).outgoing := by
  induction refs generalizing h with
  | nil => rfl
  | cons a rest ih =>
    simp only [List.foldl, ih, hget_queueMissed]
    by_cases ha : a = r <;> simp [ha]

theorem hget_foldQueue_incoming (refs : List SessionRef)
    (h : List (SessionRef × MemorySession)) (r : SessionRef) (m : Message) :
    (hget (refs.foldl (fun h' r' => queueMissed h' r' m) h) r).incoming =
      (hget h r).incoming := by
  induction refs generalizing h with
  | nil => rfl
  | cons a rest ih =>
    simp only [List.foldl, ih, hget_queueMissed]
    by_cases ha : a = r <;> simp [ha]

/-! ### Branch characterizations of the backend operations -/

/-- Reading a context after the two `Context.Set` calls of `Setup`. -/
theorem ctxGet_of_alookup {s : BackendState} {c : ClientId} {cc : ClientCtx}
    (h : alookup s.ctx c = some cc) : ctxGet s c = cc := by
  simp [ctxGet, h]

theorem ctxGet_session_alookup {s : BackendState} {c : ClientId} {ref : SessionRef}
    (h : (ctxGet s c).session = some ref) : alookup s.ctx c = some (ctxGet s c) := by
  cases hl : alookup s.ctx c with
  | none => simp [ctxGet, hl, ClientCtx.empty] at h
  | some cc => simp [ctxGet, hl]

/-- `Setup` with an empty id (backend.go lines 130-135). -/
theorem Setup_anon_eq (s : BackendState) (c : ClientId) (clean : Bool) :
    Setup s c "" clean =
    ({ s with
        heap := aset s.heap s.nextRef NewMemorySession
        nextRef := s.nextRef + 1
        ctx := aset (aset s.ctx c { ctxGet s c with clean := some clean }) c
          { ctxGet s c with clean := some clean, session := some s.nextRef } },
     { session := s.nextRef, resumed := false, err := none
       closeCalls := [], replay := [] }) := by
  simp [Setup, ctxGet, alookup_aset]

/-- `Setup` resuming a stored session (backend.go lines 137-168). -/
theorem Setup_found_eq (s : BackendState) (c : ClientId) (id : String) (clean : Bool)
    (ref : SessionRef) (hid : ¬ id = "") (hf : alookup s.sessions id = some ref) :
    Setup s c id clean =
    ({ s with
        heap := aset s.heap ref
          { (if clean then ({ getSess s ref with currentClient := some c }).Reset
             else { getSess s ref with currentClient := some c }) with missedQueue := [] }
        offlineQueue := treeClear s.offlineQueue ref
        ctx := aset (aset s.ctx c { ctxGet s c with clean := some clean }) c
          { ctxGet s c with clean := some clean, session := some ref } },
     { session := ref, resumed := true, err := none
       closeCalls := match (getSess s ref).currentClient with
         | some c0 => [(c0, true)]
         | none => []
       replay := (if clean then ({ getSess s ref with currentClient := some c }).Reset
                  else { getSess s ref with currentClient := some c }).missedQueue }) := by
  simp only [Setup, if_neg hid]
  have hctx : ctxGet { s with ctx := aset s.ctx c { ctxGet s c with clean := some clean } } c =
      { ctxGet s c with clean := some clean } := by
    simp [ctxGet, alookup_aset]
  have hsess : getSess { s with ctx := aset s.ctx c { ctxGet s c with clean := some clean } } ref =
      getSess s ref := rfl
  rw [show alookup ({ s with ctx := aset s.ctx c { ctxGet s c with clean := some clean } } : BackendState).sessions id = some ref from hf]
  simp only [hctx, hsess]

/-- `Setup` creating and registering a fresh session (backend.go lines 170-179). -/
theorem Setup_fresh_eq (s : BackendState) (c : ClientId) (id : String) (clean : Bool)
    (hid : ¬ id = "") (hf : alookup s.sessions id = none) :
    Setup s c id clean =
    ({ s with
        heap := aset s.heap s.nextRef { NewMemorySession with currentClient := some c }
        nextRef := s.nextRef + 1
        sessions := aset s.sessions id s.nextRef
        ctx := aset (aset s.ctx c { ctxGet s c with clean := some clean }) c
          { ctxGet s c with clean := some clean, session := some s.nextRef } },
     { session := s.nextRef, resumed := false, err := none
       closeCalls := [], replay := [] }) := by
  simp only [Setup, if_neg hid]
  have hctx : ctxGet { s with ctx := aset s.ctx c { ctxGet s c with clean := some clean } } c =
      { ctxGet s c with clean := some clean } := by
    simp [ctxGet, alookup_aset]
  rw [show alookup ({ s with ctx := aset s.ctx c { ctxGet s c with clean := some clean } } : BackendState).sessions id = none from hf]
  simp only [hctx]

/-- `Terminate` for a client without a bound session (backend.go lines 252-257). -/
theorem Terminate_nosession_eq (s : BackendState) (c : ClientId)
    (h : (ctxGet s c).session = none) :
    Terminate s c = ({ s with queue := treeClear s.queue c }, none) := by
  simp only [Terminate]
  have : ctxGet { s with queue := treeClear s.queue c } c = ctxGet s c := rfl
  rw [this, h]

/-- `Terminate` for a client that connected with clean=true (backend.go
lines 261-267). -/
theorem Terminate_clean_eq (s : BackendState) (c : ClientId) (ref : SessionRef)
    (h : (ctxGet s c).session = some ref) (hcl : (ctxGet s c).clean = some true) :
    Terminate s c =
    ({ s with queue := treeClear s.queue c
              heap := aset s.heap ref
                ({ getSess s ref with currentClient := none }).Reset }, none) := by
  simp only [Terminate]
  have h1 : ctxGet { s with queue := treeClear s.queue c } c = ctxGet s c := rfl
  rw [h1, h, hcl]
  rfl

/-- `Terminate` for a client that connected with clean=false (or whose clean
flag is absent): register offline subscriptions (backend.go lines 269-281). -/
theorem Terminate_register_eq (s : BackendState) (c : ClientId) (ref : SessionRef)
    (h : (ctxGet s c).session = some ref) (hcl : (ctxGet s c).clean ≠ some true) :
    Terminate s c =
    ({ s with queue := treeClear s.queue c
              heap := aset s.heap ref { getSess s ref with currentClient := none }
              offlineQueue :=
                ((getSess s ref).subscriptions.foldl
                  (fun q sub => if 1 ≤ sub.qos then treeAdd q sub.topic ref else q)
                  s.offlineQueue) }, none) := by
  simp only [Terminate]
  have h1 : ctxGet { s with queue := treeClear s.queue c } c = ctxGet s c := rfl
  rw [h1, h]
  cases hc : (ctxGet s c).clean with
  | none => rfl
  | some b =>
    cases b with
    | false => rfl
    | true => exact absurd hc hcl

theorem alookup_aset2 {κ β : Type} [DecidableEq κ] (l : List (κ × β)) (k k' : κ)
    (v w : β) :
    alookup (aset (aset l k v) k w) k' = if k = k' then some w else alookup l k' := by
  rw [alookup_aset, alookup_aset]
  by_cases h : k = k' <;> simp [h]

/-! ### The offline-queue invariant -/

/-- Inductive invariant tying the offline queue to session and context
state: every offline-queued session reference is an allocated reference, is
detached (no current client), holds a subscription with QoS ≥ 1, and is the
bound session of some client that connected with clean=false.  The three
bound fields state that offline-queue, sessions-registry and context
references were handed out by the allocator. -/
structure Inv (s : BackendState) : Prop where
  ovBound : ∀ ref ∈ treeValues s.offlineQueue, ref < s.nextRef
  svBound : ∀ p ∈ s.sessions, p.2 < s.nextRef
  ctxBound : ∀ c cc, alookup s.ctx c = some cc → ∀ ref, cc.session = some ref →
    ref < s.nextRef
  ovSub : ∀ ref ∈ treeValues s.offlineQueue,
    ∃ sub ∈ (getSess s ref).subscriptions, 1 ≤ sub.qos
  ovClient : ∀ ref ∈ treeValues s.offlineQueue, (getSess s ref).currentClient = none
  ovCtx : ∀ ref ∈ treeValues s.offlineQueue,
    ∃ c cc, alookup s.ctx c = some cc ∧ cc.clean = some false ∧ cc.session = some ref
  ctxClean : ∀ c cc, alookup s.ctx c = some cc → cc.session.isSome → cc.clean.isSome

theorem Inv.congr {s s' : BackendState} (h : Inv s)
    (h1 : s'.offlineQueue = s.offlineQueue) (h2 : s'.sessions = s.sessions)
    (h3 : s'.ctx = s.ctx) (h4 : s'.heap = s.heap) (h5 : s'.nextRef = s.nextRef) :
    Inv s' := by
  constructor
  · intro ref hr
    rw [h1] at hr
    rw [h5]
    exact h.ovBound ref hr
  · intro p hp
    rw [h2] at hp
    rw [h5]
    exact h.svBound p hp
  · intro c cc hcc ref hrf
    rw [h3] at hcc
    rw [h5]
    exact h.ctxBound c cc hcc ref hrf
  · intro ref hr
    rw [h1] at hr
    simp only [getSess, h4]
    exact h.ovSub ref hr
  · intro ref hr
    rw [h1] at hr
    simp only [getSess, h4]
    exact h.ovClient ref hr
  · intro ref hr
    rw [h1] at hr
    rw [h3]
    exact h.ovCtx ref hr
  · intro c cc hcc hs
    rw [h3] at hcc
    exact h.ctxClean c cc hcc hs

theorem inv_init (logins : Option (List (String × String))) :
    Inv (NewMemoryBackend logins) := by
  constructor <;> simp [NewMemoryBackend, treeValues, alookup]

theorem inv_subscribe {s : BackendState} (h : Inv s) (c : ClientId) (t : String) :
    Inv (Subscribe s c t).1 :=
  h.congr rfl rfl rfl rfl rfl

theorem inv_unsubscribe {s : BackendState} (h : Inv s) (c : ClientId) (t : String) :
    Inv (Unsubscribe s c t).1 :=
  h.congr rfl rfl rfl rfl rfl

theorem inv_publish {s : BackendState} (h : Inv s) (c : ClientId) (m : Message) :
    Inv (Publish s c m).1 := by
  constructor
  · exact h.ovBound
  · exact h.svBound
  · exact h.ctxBound
  · intro ref hr
    have hsub : (getSess (Publish s c m).1 ref).subscriptions =
        (getSess s ref).subscriptions :=
      hget_foldQueue_subscriptions (treeMatch s.offlineQueue m.topic) s.heap ref m
    rw [hsub]
    exact h.ovSub ref hr
  · intro ref hr
    have hcur : (getSess (Publish s c m).1 ref).currentClient =
        (getSess s ref).currentClient :=
      hget_foldQueue_currentClient (treeMatch s.offlineQueue m.topic) s.heap ref m
    rw [hcur]
    exact h.ovClient ref hr
  · exact h.ovCtx
  · exact h.ctxClean

/-- Updating the subscription queue and a heap cell whose reference is not
in the offline queue preserves the invariant. -/
theorem Inv.updateHeapOutside {s : BackendState} (h : Inv s) (q : Tree ClientId)
    (ref : SessionRef) (v : MemorySession)
    (hne : ∀ r ∈ treeValues s.offlineQueue, ¬ ref = r) :
    Inv { s with queue := q, heap := aset s.heap ref v } := by
  constructor
  · exact h.ovBound
  · exact h.svBound
  · exact h.ctxBound
  · intro r hr
    have hg : getSess { s with queue := q, heap := aset s.heap ref v } r =
        getSess s r := by
      simp only [getSess, hget_aset]
      rw [if_neg (hne r hr)]
    rw [hg]
    exact h.ovSub r hr
  · intro r hr
    have hg : getSess { s with queue := q, heap := aset s.heap ref v } r =
        getSess s r := by
      simp only [getSess, hget_aset]
      rw [if_neg (hne r hr)]
    rw [hg]
    exact h.ovClient r hr
  · exact h.ovCtx
  · exact h.ctxClean

/-- The offline-registration step of `Terminate` preserves the invariant:
the terminating client still owns the session, connected with clean=false,
and the session is registered under its QoS ≥ 1 subscriptions. -/
theorem Inv.registerStep {s : BackendState} (h : Inv s) {ref : SessionRef}
    {c : ClientId} (q : Tree ClientId)
    (hne : ∀ r ∈ treeValues s.offlineQueue, ¬ ref = r)
    (halk : alookup s.ctx c = some (ctxGet s c))
    (hcl : (ctxGet s c).clean = some false)
    (hsx : (ctxGet s c).session = some ref)
    (hrefB : ref < s.nextRef) :
    Inv { s with queue := q, heap := aset s.heap ref { getSess s ref with currentClient := none }, offlineQueue := ((getSess s ref).subscriptions.foldl (fun t sub => if 1 ≤ sub.qos then treeAdd t sub.topic ref else t) s.offlineQueue) } := by
  have hgother : ∀ r : SessionRef, ¬ ref = r →
      getSess { s with queue := q, heap := aset s.heap ref { getSess s ref with currentClient := none }, offlineQueue := ((getSess s ref).subscriptions.foldl (fun t sub => if 1 ≤ sub.qos then treeAdd t sub.topic ref else t) s.offlineQueue) } r = getSess s r := by
    intro r hr
    simp only [getSess, hget_aset]
    rw [if_neg hr]
  have hgself :
      getSess { s with queue := q, heap := aset s.heap ref { getSess s ref with currentClient := none }, offlineQueue := ((getSess s ref).subscriptions.foldl (fun t sub => if 1 ≤ sub.qos then treeAdd t sub.topic ref else t) s.offlineQueue) } ref = { getSess s ref with currentClient := none } := by
    simp [getSess, hget_aset]
  constructor
  · intro r hr
    rcases mem_treeValues_foldAdd hr with hr' | hr'
    · exact h.ovBound r hr'
    · rw [hr'.1]
      exact hrefB
  · exact h.svBound
  · exact h.ctxBound
  · intro r hr
    rcases mem_treeValues_foldAdd hr with hr' | hr'
    · rw [hgother r (hne r hr')]
      exact h.ovSub r hr'
    · obtain ⟨hreq, sub, hmem, hq⟩ := hr'
      rw [hreq, hgself]
      exact ⟨sub, hmem, hq⟩
  · intro r hr
    rcases mem_treeValues_foldAdd hr with hr' | hr'
    · rw [hgother r (hne r hr')]
      exact h.ovClient r hr'
    · rw [hr'.1, hgself]
  · intro r hr
    rcases mem_treeValues_foldAdd hr with hr' | hr'
    · exact h.ovCtx r hr'
    · rw [hr'.1]
      exact ⟨c, ctxGet s c, halk, hcl, hsx⟩
  · exact h.ctxClean

theorem inv_saveSub {s : BackendState} (h : Inv s) (c : ClientId) (sub : Subscription)
    (hok : okAction s (.saveSub c sub) = true) : Inv (SaveSub s c sub) := by
  cases hsx : (ctxGet s c).session with
  | none => simpa [SaveSub, hsx] using h
  | some ref =>
    have hcur : (getSess s ref).currentClient = some c := by
      simp only [okAction, hsx] at hok
      exact of_decide_eq_true hok
    have hne : ∀ r ∈ treeValues s.offlineQueue, ¬ ref = r := by
      intro r hr hrr
      rw [← hrr] at hr
      rw [h.ovClient ref hr] at hcur
      cases hcur
    have hstate : SaveSub s c sub =
        { s with queue := s.queue, heap := aset s.heap ref ((getSess s ref).SaveSubscription sub) } := by
      simp [SaveSub, hsx]
    rw [hstate]
    exact h.updateHeapOutside s.queue ref _ hne

theorem inv_terminate {s : BackendState} (h : Inv s) (c : ClientId)
    (hok : okAction s (.terminate c) = true) : Inv (Terminate s c).1 := by
  cases hsx : (ctxGet s c).session with
  | none =>
    rw [Terminate_nosession_eq s c hsx]
    exact h.congr rfl rfl rfl rfl rfl
  | some ref =>
    have hcur : (getSess s ref).currentClient = some c := by
      simp only [okAction, hsx] at hok
      exact of_decide_eq_true hok
    have hne : ∀ r ∈ treeValues s.offlineQueue, ¬ ref = r := by
      intro r hr hrr
      rw [← hrr] at hr
      rw [h.ovClient ref hr] at hcur
      cases hcur
    have halk : alookup s.ctx c = some (ctxGet s c) := ctxGet_session_alookup hsx
    have hrefB : ref < s.nextRef := h.ctxBound c (ctxGet s c) halk ref hsx
    cases hcl : (ctxGet s c).clean with
    | some b =>
      cases b with
      | true =>
        rw [Terminate_clean_eq s c ref hsx hcl]
        exact h.updateHeapOutside (treeClear s.queue c) ref _ hne
      | false =>
        have hcl' : (ctxGet s c).clean ≠ some true := by
          rw [hcl]
          intro hx
          cases hx
        rw [Terminate_register_eq s c ref hsx hcl']
        exact h.registerStep (treeClear s.queue c) hne halk hcl hsx hrefB
    | none =>
      have hclean := h.ctxClean c (ctxGet s c) halk (by rw [hsx]; rfl)
      rw [hcl] at hclean
      cases hclean


theorem hget_aset_ne (h : List (SessionRef × MemorySession)) (k r : SessionRef)
    (v : MemorySession) (hne : ¬ k = r) : hget (aset h k v) r = hget h r := by
  rw [hget_aset, if_neg hne]

theorem inv_setup {s : BackendState} (h : Inv s) (c : ClientId) (id : String)
    (clean : Bool) (hok : okAction s (.setup c id clean) = true) :
    Inv (Setup s c id clean).1 := by
  have halk : alookup s.ctx c = none := by
    simp only [okAction] at hok
    exact Option.isNone_iff_eq_none.1 hok
  have hemp : ctxGet s c = ClientCtx.empty := by
    simp [ctxGet, halk]
  have hc0ne : ∀ c0 cc0, alookup s.ctx c0 = some cc0 → ¬ c = c0 := by
    intro c0 cc0 hcc0 hh
    rw [← hh, halk] at hcc0
    cases hcc0
  by_cases hid : id = ""
  · subst hid
    rw [Setup_anon_eq s c clean, hemp]
    refine ⟨?_, ?_, ?_, ?_, ?_, ?_, ?_⟩
    · intro r hr
      exact Nat.lt_succ_of_lt (h.ovBound r hr)
    · intro p hp
      exact Nat.lt_succ_of_lt (h.svBound p hp)
    · intro c' cc hcc ref' hrf
      rw [alookup_aset2] at hcc
      by_cases hc : c = c'
      · rw [if_pos hc] at hcc
        cases hcc
        cases hrf
        exact Nat.lt_succ_self _
      · rw [if_neg hc] at hcc
        exact Nat.lt_succ_of_lt (h.ctxBound c' cc hcc ref' hrf)
    · intro r hr
      simp only [getSess, hget_aset]
      rw [if_neg (ne_of_gt (h.ovBound r hr))]
      exact h.ovSub r hr
    · intro r hr
      simp only [getSess, hget_aset]
      rw [if_neg (ne_of_gt (h.ovBound r hr))]
      exact h.ovClient r hr
    · intro r hr
      obtain ⟨c0, cc0, hcc0, hcl0, hsx0⟩ := h.ovCtx r hr
      refine ⟨c0, cc0, ?_, hcl0, hsx0⟩
      rw [alookup_aset2, if_neg (hc0ne c0 cc0 hcc0)]
      exact hcc0
    · intro c' cc hcc hs'
      rw [alookup_aset2] at hcc
      by_cases hc : c = c'
      · rw [if_pos hc] at hcc
        cases hcc
        rfl
      · rw [if_neg hc] at hcc
        exact h.ctxClean c' cc hcc hs'
  · cases hf : alookup s.sessions id with
    | some ref =>
      have hrefB : ref < s.nextRef := h.svBound (id, ref) (alookup_mem hf)
      rw [Setup_found_eq s c id clean ref hid hf, hemp]
      refine ⟨?_, ?_, ?_, ?_, ?_, ?_, ?_⟩
      · intro r hr
        exact h.ovBound r (mem_treeValues_treeClear hr).1
      · exact h.svBound
      · intro c' cc hcc ref' hrf
        rw [alookup_aset2] at hcc
        by_cases hc : c = c'
        · rw [if_pos hc] at hcc
          cases hcc
          cases hrf
          exact hrefB
        · rw [if_neg hc] at hcc
          exact h.ctxBound c' cc hcc ref' hrf
      · intro r hr
        obtain ⟨hr', hne⟩ := mem_treeValues_treeClear hr
        simp only [getSess, hget_aset]
        rw [if_neg (fun hh => hne hh.symm)]
        exact h.ovSub r hr'
      · intro r hr
        obtain ⟨hr', hne⟩ := mem_treeValues_treeClear hr
        simp only [getSess, hget_aset]
        rw [if_neg (fun hh => hne hh.symm)]
        exact h.ovClient r hr'
      · intro r hr
        obtain ⟨hr', hne⟩ := mem_treeValues_treeClear hr
        obtain ⟨c0, cc0, hcc0, hcl0, hsx0⟩ := h.ovCtx r hr'
        refine ⟨c0, cc0, ?_, hcl0, hsx0⟩
        rw [alookup_aset2, if_neg (hc0ne c0 cc0 hcc0)]
        exact hcc0
      · intro c' cc hcc hs'
        rw [alookup_aset2] at hcc
        by_cases hc : c = c'
        · rw [if_pos hc] at hcc
          cases hcc
          rfl
        · rw [if_neg hc] at hcc
          exact h.ctxClean c' cc hcc hs'
    | none =>
      rw [Setup_fresh_eq s c id clean hid hf, hemp]
      refine ⟨?_, ?_, ?_, ?_, ?_, ?_, ?_⟩
      · intro r hr
        exact Nat.lt_succ_of_lt (h.ovBound r hr)
      · intro p hp
        rcases mem_aset hp with hp' | hp'
        · exact Nat.lt_succ_of_lt (h.svBound p hp')
        · rw [hp']
          exact Nat.lt_succ_self _
      · intro c' cc hcc ref' hrf
        rw [alookup_aset2] at hcc
        by_cases hc : c = c'
        · rw [if_pos hc] at hcc
          cases hcc
          cases hrf
          exact Nat.lt_succ_self _
        · rw [if_neg hc] at hcc
          exact Nat.lt_succ_of_lt (h.ctxBound c' cc hcc ref' hrf)
      · intro r hr
        simp only [getSess, hget_aset]
        rw [if_neg (ne_of_gt (h.ovBound r hr))]
        exact h.ovSub r hr
      · intro r hr
        simp only [getSess, hget_aset]
        rw [if_neg (ne_of_gt (h.ovBound r hr))]
        exact h.ovClient r hr
      · intro r hr
        obtain ⟨c0, cc0, hcc0, hcl0, hsx0⟩ := h.ovCtx r hr
        refine ⟨c0, cc0, ?_, hcl0, hsx0⟩
        rw [alookup_aset2, if_neg (hc0ne c0 cc0 hcc0)]
        exact hcc0
      · intro c' cc hcc hs'
        rw [alookup_aset2] at hcc
        by_cases hc : c = c'
        · rw [if_pos hc] at hcc
          cases hcc
          rfl
        · rw [if_neg hc] at hcc
          exact h.ctxClean c' cc hcc hs'

theorem inv_applyAction {s : BackendState} {a : Action} (h : Inv s)
    (hok : okAction s a = true) : Inv (applyAction s a) := by
  cases a with
  | setup c id clean => exact inv_setup h c id clean hok
  | subscribe c t => exact inv_subscribe h c t
  | unsubscribe c t => exact inv_unsubscribe h c t
  | publish c m => exact inv_publish h c m
  | terminate c => exact inv_terminate h c hok
  | saveSub c sub => exact inv_saveSub h c sub hok

theorem inv_goodRun {s : BackendState} (h : Inv s) :
    ∀ tr : List Action, goodRun s tr = true → Inv (run s tr) := by
  intro tr
  induction tr generalizing s with
  | nil =>
    intro _
    exact h
  | cons a rest ih =>
    intro hg
    simp only [goodRun, Bool.and_eq_true] at hg
    exact ih (inv_applyAction h hg.1) hg.2


/-! ### Retained-message store -/

theorem alookup_treeSet {α : Type} (r : Tree α) (k t : String) (v : α) :
    alookup (treeSet r k v) t = if k = t then some [v] else alookup r t := by
  induction r with
  | nil => simp [treeSet, alookup]
  | cons e rest ih =>
    obtain ⟨g, vs⟩ := e
    by_cases hg : g = k
    · subst hg
      simp only [treeSet, if_pos rfl, alookup]
      by_cases hk : g = t <;> simp [hk]
    · simp only [treeSet, if_neg hg, alookup]
      by_cases hgt : g = t
      · subst hgt
        rw [if_pos rfl, if_neg (fun hh => hg hh.symm), if_pos rfl]
      · rw [if_neg hgt, if_neg hgt, ih]

theorem alookup_treeEmpty {α : Type} (r : Tree α) (k t : String) :
    alookup (treeEmpty r k) t = if k = t then none else alookup r t := by
  induction r with
  | nil => simp [treeEmpty, alookup]
  | cons e rest ih =>
    obtain ⟨g, vs⟩ := e
    by_cases hg : g = k
    · subst hg
      have hE : treeEmpty ((g, vs) :: rest) g = treeEmpty rest g := by
        simp [treeEmpty]
      rw [hE, ih]
      by_cases hk : g = t
      · subst hk
        simp
      · rw [if_neg hk, if_neg hk, alookup, if_neg hk]
    · simp only [treeEmpty, if_neg hg, alookup]
      by_cases hgt : g = t
      · subst hgt
        rw [if_pos rfl, if_neg (fun hh => hg hh.symm), if_pos rfl]
      · rw [if_neg hgt, if_neg hgt, ih]

theorem retained_Publish (s : BackendState) (c : ClientId) (m : Message) :
    (Publish s c m).1.retained =
      if m.retain then
        (if m.payload = [] then treeEmpty s.retained m.topic
         else treeSet s.retained m.topic m)
      else s.retained := by
  by_cases hr : m.retain <;> by_cases hp : m.payload = [] <;>
    simp [Publish, hr, hp]

theorem retainedAt_Publish (s : BackendState) (c : ClientId) (m : Message)
    (t : String) :
    retainedAt (Publish s c m).1 t =
      if m.retain && m.topic == t then
        (if m.payload = [] then none else some m)
      else retainedAt s t := by
  have hbase : retainedAt (Publish s c m).1 t =
      (match alookup (Publish s c m).1.retained t with
        | some (m' :: _) => some m'
        | _ => none) := rfl
  rw [hbase, retained_Publish]
  by_cases hr : m.retain
  · by_cases hp : m.payload = []
    · rw [if_pos hr, if_pos hp, alookup_treeEmpty]
      by_cases ht : m.topic = t
      · simp [hr, ht, hp]
      · have : (m.topic == t) = false := by simp [ht]
        simp [hr, this, ht, retainedAt]
    · rw [if_pos hr, if_neg hp, alookup_treeSet]
      by_cases ht : m.topic = t
      · simp [hr, ht, hp]
      · have : (m.topic == t) = false := by simp [ht]
        simp [hr, this, ht, retainedAt]
  · have : (m.retain && m.topic == t) = false := by simp [hr]
    simp [this, hr, retainedAt]

theorem retainedAt_runPubs (ps : List (ClientId × Message)) (s : BackendState)
    (t : String) :
    retainedAt (runPubs s ps) t =
      match specLastRetained ps t with
      | some m => if m.payload = [] then none else some m
      | none => retainedAt s t := by
  induction ps generalizing s with
  | nil => rfl
  | cons p rest ih =>
    simp only [runPubs, specLastRetained]
    rw [ih]
    cases hrest : specLastRetained rest t with
    | some m => rfl
    | none =>
      simp only []
      rw [retainedAt_Publish]
      by_cases hc : (p.2.retain && p.2.topic == t) = true
      · rw [if_pos hc, if_pos hc]
      · rw [if_neg hc, if_neg hc]

/-! ### Offline registration as a filtered fold -/

theorem foldAdd_filter (subs : List Subscription) (q : Tree SessionRef)
    (ref : SessionRef) :
    subs.foldl (fun t sub => if 1 ≤ sub.qos then treeAdd t sub.topic ref else t) q =
    (subs.filter (fun sub => 1 ≤ sub.qos)).foldl
      (fun t sub => treeAdd t sub.topic ref) q := by
  induction subs generalizing q with
  | nil => rfl
  | cons a rest ih =>
    by_cases ha : 1 ≤ a.qos
    · simp only [List.foldl, List.filter, if_pos ha,
        show (decide (1 ≤ a.qos)) = true from by simp [ha]]
      exact ih (treeAdd q a.topic ref)
    · simp only [List.foldl, List.filter, if_neg ha,
        show (decide (1 ≤ a.qos)) = false from by simp [ha]]
      exact ih q

/-! ### Allocator freshness across arbitrary call sequences -/

/-- Every backend call either leaves the sessions registry unchanged (and
does not decrease the allocator), or registers exactly the next fresh
reference. -/
theorem sessions_applyAction (s : BackendState) (a : Action) :
    ((applyAction s a).sessions = s.sessions ∧
      s.nextRef ≤ (applyAction s a).nextRef) ∨
    (∃ id, (applyAction s a).sessions = aset s.sessions id s.nextRef ∧
      (applyAction s a).nextRef = s.nextRef + 1) := by
  cases a with
  | setup c id clean =>
    by_cases hid : id = ""
    · subst hid
      rw [show applyAction s (.setup c "" clean) = (Setup s c "" clean).1 from rfl,
        Setup_anon_eq]
      exact Or.inl ⟨rfl, Nat.le_succ _⟩
    · cases hf : alookup s.sessions id with
      | some ref =>
        rw [show applyAction s (.setup c id clean) = (Setup s c id clean).1 from rfl,
          Setup_found_eq s c id clean ref hid hf]
        exact Or.inl ⟨rfl, Nat.le_refl _⟩
      | none =>
        rw [show applyAction s (.setup c id clean) = (Setup s c id clean).1 from rfl,
          Setup_fresh_eq s c id clean hid hf]
        exact Or.inr ⟨id, rfl, rfl⟩
  | subscribe c t => exact Or.inl ⟨rfl, Nat.le_refl _⟩
  | unsubscribe c t => exact Or.inl ⟨rfl, Nat.le_refl _⟩
  | publish c m => exact Or.inl ⟨rfl, Nat.le_refl _⟩
  | terminate c =>
    cases hsx : (ctxGet s c).session with
    | none =>
      rw [show applyAction s (.terminate c) = (Terminate s c).1 from rfl,
        Terminate_nosession_eq s c hsx]
      exact Or.inl ⟨rfl, Nat.le_refl _⟩
    | some ref =>
      by_cases hcl : (ctxGet s c).clean = some true
      · rw [show applyAction s (.terminate c) = (Terminate s c).1 from rfl,
          Terminate_clean_eq s c ref hsx hcl]
        exact Or.inl ⟨rfl, Nat.le_refl _⟩
      · rw [show applyAction s (.terminate c) = (Terminate s c).1 from rfl,
          Terminate_register_eq s c ref hsx hcl]
        exact Or.inl ⟨rfl, Nat.le_refl _⟩
  | saveSub c sub =>
    cases hsx : (ctxGet s c).session with
    | none =>
      exact Or.inl ⟨by simp [applyAction, SaveSub, hsx], by simp [applyAction, SaveSub, hsx]⟩
    | some ref =>
      exact Or.inl ⟨by simp [applyAction, SaveSub, hsx], by simp [applyAction, SaveSub, hsx]⟩

/-- An allocated, unregistered session reference stays unregistered and
below the allocator along any sequence of backend calls. -/
theorem fresh_run {ref : SessionRef} {s : BackendState}
    (h1 : ref < s.nextRef) (h2 : ref ∉ s.sessions.map Prod.snd)
    (tr : List Action) :
    ref < (run s tr).nextRef ∧ ref ∉ (run s tr).sessions.map Prod.snd := by
  induction tr generalizing s with
  | nil => exact ⟨h1, h2⟩
  | cons a rest ih =>
    have hstep := sessions_applyAction s a
    rcases hstep with ⟨hs, hn⟩ | ⟨id, hs, hn⟩
    · exact ih (Nat.lt_of_lt_of_le h1 hn) (by rw [hs]; exact h2)
    · refine ih (by rw [hn]; exact Nat.lt_succ_of_lt h1) ?_
      rw [hs]
      intro hmem
      rcases List.mem_map.1 hmem with ⟨p, hp, hp2⟩
      rcases mem_aset hp with hp' | hp'
      · exact h2 (List.mem_map.2 ⟨p, hp', hp2⟩)
      · rw [hp'] at hp2
        rw [← hp2] at h1
        exact absurd h1 (lt_irrefl _)

/-- Session registry references are below the allocator, along any sequence
of backend calls. -/
theorem sbound_run {s : BackendState}
    (hs : ∀ p ∈ s.sessions, p.2 < s.nextRef) (tr : List Action) :
    ∀ p ∈ (run s tr).sessions, p.2 < (run s tr).nextRef := by
  induction tr generalizing s with
  | nil => exact hs
  | cons a rest ih =>
    have hstep := sessions_applyAction s a
    rcases hstep with ⟨hseq, hn⟩ | ⟨id, hseq, hn⟩
    · refine ih ?_
      intro p hp
      rw [hseq] at hp
      exact Nat.lt_of_lt_of_le (hs p hp) hn
    · refine ih ?_
      intro p hp
      rw [hseq] at hp
      rw [hn]
      rcases mem_aset hp with hp' | hp'
      · exact Nat.lt_succ_of_lt (hs p hp')
      · rw [hp']
        exact Nat.lt_succ_self _

/-- The session returned by `Setup` is either the next fresh reference or a
reference already in the sessions registry. -/
theorem Setup_session_cases (s : BackendState) (c : ClientId) (id : String)
    (clean : Bool) :
    (Setup s c id clean).2.session = s.nextRef ∨
    (Setup s c id clean).2.session ∈ s.sessions.map Prod.snd := by
  by_cases hid : id = ""
  · subst hid
    rw [Setup_anon_eq]
    exact Or.inl rfl
  · cases hf : alookup s.sessions id with
    | some ref =>
      rw [Setup_found_eq s c id clean ref hid hf]
      exact Or.inr (List.mem_map.2 ⟨(id, ref), alookup_mem hf, rfl⟩)
    | none =>
      rw [Setup_fresh_eq s c id clean hid hf]
      exact Or.inl rfl


/-! ### Claim theorems -/

/-- C7: `Authenticate` returns true when no `Logins` map is configured,
otherwise exactly when the map holds an entry for the user whose value
equals the supplied password, and false in every other case; the error is
always nil.  (The spec's "constant-time equality" names the comparison
mechanism; value-level behaviour of a constant-time string comparison is
extensionally plain equality, which is what is provable in this embedding.) -/
theorem C7_authenticate (s : BackendState) (user password : String) :
    ((Authenticate s user password).1 = true ↔
      (s.logins = none ∨
        ∃ l, s.logins = some l ∧ alookup l user = some password)) ∧
    (Authenticate s user password).2 = none := by
  constructor
  · cases hl : s.logins with
    | none => simp [Authenticate, hl]
    | some l =>
      cases ha : alookup l user with
      | none => simp [Authenticate, hl, ha]
      | some pw =>
        by_cases hp : pw = password
        · simp [Authenticate, hl, ha, hp]
        · simp [Authenticate, hl, ha, hp]
  · cases hl : s.logins with
    | none => simp [Authenticate, hl]
    | some l =>
      cases ha : alookup l user with
      | none => simp [Authenticate, hl, ha]
      | some pw => simp [Authenticate, hl, ha]

/-- C9: `Authenticate`, `Subscribe`, `Unsubscribe` and `Publish` return a
nil error on every input; authentication denial is reported only through
the boolean result. -/
theorem C9_nil_errors (s : BackendState) (c : ClientId)
    (user password topic : String) (msg : Message) :
    (Authenticate s user password).2 = none ∧
    (Subscribe s c topic).2.2 = none ∧
    (Unsubscribe s c topic).2 = none ∧
    (Publish s c msg).2.err = none := by
  refine ⟨?_, rfl, rfl, rfl⟩
  cases hl : s.logins with
  | none => simp [Authenticate, hl]
  | some l =>
    cases ha : alookup l user with
    | none => simp [Authenticate, hl, ha]
    | some pw => simp [Authenticate, hl, ha]

/-- C10: `Setup` with an empty id leaves the ephemeral session's
currentClient unset, while `Setup` with a non-empty id sets the returned
session's currentClient to the connecting client. -/
theorem C10_current_client (s : BackendState) (c : ClientId) (id : String)
    (clean : Bool) :
    (getSess (Setup s c "" clean).1
      (Setup s c "" clean).2.session).currentClient = none ∧
    (¬ id = "" →
      (getSess (Setup s c id clean).1
        (Setup s c id clean).2.session).currentClient = some c) := by
  constructor
  · rw [Setup_anon_eq]
    simp [getSess, hget_aset, NewMemorySession]
  · intro hid
    cases hf : alookup s.sessions id with
    | some ref =>
      rw [Setup_found_eq s c id clean ref hid hf]
      by_cases hcl : clean <;>
        simp [getSess, hget_aset, hcl, MemorySession.Reset]
    | none =>
      rw [Setup_fresh_eq s c id clean hid hf]
      simp [getSess, hget_aset]

/-- Witness for `C10_current_client` at concrete inputs. -/
theorem C10_current_client_witness :
    (getSess (Setup (NewMemoryBackend none) 1 "" true).1
      (Setup (NewMemoryBackend none) 1 "" true).2.session).currentClient = none ∧
    (getSess (Setup (NewMemoryBackend none) 1 "x" true).1
      (Setup (NewMemoryBackend none) 1 "x" true).2.session).currentClient = some 1 :=
  ⟨(C10_current_client (NewMemoryBackend none) 1 "x" true).1,
   (C10_current_client (NewMemoryBackend none) 1 "x" true).2 (by decide)⟩

/-- C6: a single `Publish` call synchronously invokes `client.Publish` for
exactly the clients in `queue.Match(msg.Topic)` (once per matching
subscription), appends the message once per offline-queue match to each
matching session's missed queue, and leaves every non-matching session's
missed queue unchanged. -/
theorem C6_publish_delivery (s : BackendState) (c : ClientId) (msg : Message)
    (ref : SessionRef) :
    (Publish s c msg).2.publishCalls =
      (treeMatch s.queue msg.topic).map (fun cl => (cl, msg)) ∧
    (getSess (Publish s c msg).1 ref).missedQueue =
      (getSess s ref).missedQueue ++
        List.replicate ((treeMatch s.offlineQueue msg.topic).count ref) msg ∧
    (ref ∉ treeMatch s.offlineQueue msg.topic →
      (getSess (Publish s c msg).1 ref).missedQueue =
        (getSess s ref).missedQueue) ∧
    (Publish s c msg).1.queue = s.queue := by
  refine ⟨rfl, ?_, ?_, rfl⟩
  · exact hget_foldQueue_missedQueue (treeMatch s.offlineQueue msg.topic) s.heap ref msg
  · intro hnot
    have hc : (treeMatch s.offlineQueue msg.topic).count ref = 0 :=
      List.count_eq_zero.2 hnot
    have := hget_foldQueue_missedQueue (treeMatch s.offlineQueue msg.topic) s.heap ref msg
    rw [hc] at this
    simpa using this

/-- Witness for `C6_publish_delivery` at concrete inputs. -/
theorem C6_publish_delivery_witness :
    (Publish (NewMemoryBackend none) 1 ⟨"t", [7], 0, false⟩).2.publishCalls =
      (treeMatch (NewMemoryBackend none).queue "t").map
        (fun cl => (cl, (⟨"t", [7], 0, false⟩ : Message))) ∧
    (getSess (Publish (NewMemoryBackend none) 1 ⟨"t", [7], 0, false⟩).1 0).missedQueue =
      (getSess (NewMemoryBackend none) 0).missedQueue ++
        List.replicate ((treeMatch (NewMemoryBackend none).offlineQueue "t").count 0)
          ⟨"t", [7], 0, false⟩ ∧
    (getSess (Publish (NewMemoryBackend none) 1 ⟨"t", [7], 0, false⟩).1 0).missedQueue =
      (getSess (NewMemoryBackend none) 0).missedQueue ∧
    (Publish (NewMemoryBackend none) 1 ⟨"t", [7], 0, false⟩).1.queue =
      (NewMemoryBackend none).queue :=
  ⟨(C6_publish_delivery (NewMemoryBackend none) 1 ⟨"t", [7], 0, false⟩ 0).1,
   (C6_publish_delivery (NewMemoryBackend none) 1 ⟨"t", [7], 0, false⟩ 0).2.1,
   (C6_publish_delivery (NewMemoryBackend none) 1 ⟨"t", [7], 0, false⟩ 0).2.2.1 (by decide),
   (C6_publish_delivery (NewMemoryBackend none) 1 ⟨"t", [7], 0, false⟩ 0).2.2.2⟩


/-- C3: when `Setup` finds a stored session whose currentClient is present,
it closes that client with clean=true (Will suppressed, per the spec's
reading of a clean close) before attaching the new client. -/
theorem C3_collision_eviction (s : BackendState) (c : ClientId) (id : String)
    (clean : Bool) (c0 : ClientId) (ref : SessionRef)
    (hid : ¬ id = "") (hf : alookup s.sessions id = some ref)
    (hcur : (getSess s ref).currentClient = some c0) :
    (Setup s c id clean).2.closeCalls = [(c0, true)] ∧
    ((Setup s c id clean).2.closeCalls.all fun call => willSuppressed call.2) = true ∧
    (getSess (Setup s c id clean).1 ref).currentClient = some c := by
  rw [Setup_found_eq s c id clean ref hid hf]
  refine ⟨?_, ?_, ?_⟩
  · simp [hcur]
  · simp [hcur, willSuppressed]
  · by_cases hcl : clean <;>
      simp [getSess, hget_aset, hcl, MemorySession.Reset]

/-- Witness for `C3_collision_eviction` at concrete inputs: client 2 takes
over session "x" owned by client 1. -/
theorem C3_collision_eviction_witness :
    (Setup storedState 2 "x" false).2.closeCalls = [(1, true)] ∧
    ((Setup storedState 2 "x" false).2.closeCalls.all
      fun call => willSuppressed call.2) = true ∧
    (getSess (Setup storedState 2 "x" false).1 0).currentClient = some 2 :=
  C3_collision_eviction storedState 2 "x" false 1 0 (by decide) (by decide)
    (by decide)

/-- C4: a stored session is created (and registered) on the first `Setup`
for its id; `Setup` with clean=true on a stored id discards all persisted
state (subscriptions, packets, missed messages) while the registry keeps
the reset session; `Setup` with clean=false preserves the stored
subscriptions and packet stores. -/
theorem C4_session_lifecycle (s : BackendState) (c : ClientId) (id : String)
    (clean : Bool) (ref : SessionRef) :
    (¬ id = "" → alookup s.sessions id = none →
      alookup (Setup s c id clean).1.sessions id =
        some (Setup s c id clean).2.session ∧
      getSess (Setup s c id clean).1 (Setup s c id clean).2.session =
        { NewMemorySession with currentClient := some c } ∧
      (Setup s c id clean).2.resumed = false) ∧
    (¬ id = "" → alookup s.sessions id = some ref →
      (Setup s c id true).2.session = ref ∧
      alookup (Setup s c id true).1.sessions id = some ref ∧
      (getSess (Setup s c id true).1 ref).subscriptions = [] ∧
      (getSess (Setup s c id true).1 ref).outgoing = [] ∧
      (getSess (Setup s c id true).1 ref).incoming = [] ∧
      (getSess (Setup s c id true).1 ref).missedQueue = []) ∧
    (¬ id = "" → alookup s.sessions id = some ref →
      (getSess (Setup s c id false).1 ref).subscriptions =
        (getSess s ref).subscriptions ∧
      (getSess (Setup s c id false).1 ref).outgoing = (getSess s ref).outgoing ∧
      (getSess (Setup s c id false).1 ref).incoming = (getSess s ref).incoming) := by
  refine ⟨?_, ?_, ?_⟩
  · intro hid hf
    rw [Setup_fresh_eq s c id clean hid hf]
    refine ⟨?_, ?_, rfl⟩
    · simp [alookup_aset]
    · simp [getSess, hget_aset]
  · intro hid hf
    rw [Setup_found_eq s c id true ref hid hf]
    refine ⟨rfl, hf, ?_, ?_, ?_, ?_⟩ <;>
      simp [getSess, hget_aset, MemorySession.Reset]
  · intro hid hf
    rw [Setup_found_eq s c id false ref hid hf]
    refine ⟨?_, ?_, ?_⟩ <;> simp [getSess, hget_aset]

/-- Witness for `C4_session_lifecycle` at concrete inputs. -/
theorem C4_session_lifecycle_witness :
    (alookup (Setup (NewMemoryBackend none) 1 "x" false).1.sessions "x" =
        some (Setup (NewMemoryBackend none) 1 "x" false).2.session ∧
      getSess (Setup (NewMemoryBackend none) 1 "x" false).1
        (Setup (NewMemoryBackend none) 1 "x" false).2.session =
        { NewMemorySession with currentClient := some 1 } ∧
      (Setup (NewMemoryBackend none) 1 "x" false).2.resumed = false) ∧
    ((Setup storedState 2 "x" true).2.session = 0 ∧
      alookup (Setup storedState 2 "x" true).1.sessions "x" = some 0 ∧
      (getSess (Setup storedState 2 "x" true).1 0).subscriptions = [] ∧
      (getSess (Setup storedState 2 "x" true).1 0).outgoing = [] ∧
      (getSess (Setup storedState 2 "x" true).1 0).incoming = [] ∧
      (getSess (Setup storedState 2 "x" true).1 0).missedQueue = []) ∧
    ((getSess (Setup storedState 2 "x" false).1 0).subscriptions =
        (getSess storedState 0).subscriptions ∧
      (getSess (Setup storedState 2 "x" false).1 0).outgoing =
        (getSess storedState 0).outgoing ∧
      (getSess (Setup storedState 2 "x" false).1 0).incoming =
        (getSess storedState 0).incoming) :=
  ⟨(C4_session_lifecycle (NewMemoryBackend none) 1 "x" false 0).1 (by decide)
      (by decide),
   (C4_session_lifecycle storedState 2 "x" true 0).2.1 (by decide) (by decide),
   (C4_session_lifecycle storedState 2 "x" false 0).2.2 (by decide) (by decide)⟩

/-- C5: `Setup` on a stored session attaches the new client, resets the
session when clean is true, removes the session from every offline-queue
position, drains the missed queue for the asynchronous replay (the replay
list is exactly the session's missed queue, empty after a reset), and
returns the stored session with resumed=true. -/
theorem C5_session_resumption (s : BackendState) (c : ClientId) (id : String)
    (clean : Bool) (ref : SessionRef) (hid : ¬ id = "")
    (hf : alookup s.sessions id = some ref) :
    (Setup s c id clean).2.session = ref ∧
    (Setup s c id clean).2.resumed = true ∧
    (getSess (Setup s c id clean).1 ref).currentClient = some c ∧
    (clean = true →
      (getSess (Setup s c id clean).1 ref).subscriptions = [] ∧
      (getSess (Setup s c id clean).1 ref).outgoing = [] ∧
      (getSess (Setup s c id clean).1 ref).incoming = []) ∧
    ref ∉ treeValues (Setup s c id clean).1.offlineQueue ∧
    (Setup s c id clean).2.replay =
      (if clean then [] else (getSess s ref).missedQueue) ∧
    (getSess (Setup s c id clean).1 ref).missedQueue = [] := by
  rw [Setup_found_eq s c id clean ref hid hf]
  refine ⟨rfl, rfl, ?_, ?_, ?_, ?_, ?_⟩
  · by_cases hcl : clean <;>
      simp [getSess, hget_aset, hcl, MemorySession.Reset]
  · intro hcl
    refine ⟨?_, ?_, ?_⟩ <;> simp [getSess, hget_aset, hcl, MemorySession.Reset]
  · exact not_mem_treeValues_treeClear _ _
  · by_cases hcl : clean <;> simp [hcl, MemorySession.Reset]
  · by_cases hcl : clean <;> simp [getSess, hget_aset, hcl, MemorySession.Reset]

/-- Witness for `C5_session_resumption` at concrete inputs: a clean=false
resumption (replay carries the stored missed queue) and a clean=true
resumption (session reset). -/
theorem C5_session_resumption_witness :
    ((Setup storedState 2 "x" false).2.session = 0 ∧
      (Setup storedState 2 "x" false).2.resumed = true ∧
      (getSess (Setup storedState 2 "x" false).1 0).currentClient = some 2 ∧
      (0 : SessionRef) ∉ treeValues (Setup storedState 2 "x" false).1.offlineQueue ∧
      (Setup storedState 2 "x" false).2.replay =
        (if false then [] else (getSess storedState 0).missedQueue) ∧
      (getSess (Setup storedState 2 "x" false).1 0).missedQueue = []) ∧
    ((getSess (Setup storedState 2 "x" true).1 0).subscriptions = [] ∧
      (getSess (Setup storedState 2 "x" true).1 0).outgoing = [] ∧
      (getSess (Setup storedState 2 "x" true).1 0).incoming = []) :=
  ⟨⟨(C5_session_resumption storedState 2 "x" false 0 (by decide) (by decide)).1,
    (C5_session_resumption storedState 2 "x" false 0 (by decide) (by decide)).2.1,
    (C5_session_resumption storedState 2 "x" false 0 (by decide) (by decide)).2.2.1,
    (C5_session_resumption storedState 2 "x" false 0 (by decide) (by decide)).2.2.2.2.1,
    (C5_session_resumption storedState 2 "x" false 0 (by decide) (by decide)).2.2.2.2.2.1,
    (C5_session_resumption storedState 2 "x" false 0 (by decide) (by decide)).2.2.2.2.2.2⟩,
   (C5_session_resumption storedState 2 "x" true 0 (by decide) (by decide)).2.2.2.1 rfl⟩


/-- C2: across any sequence of `Publish` calls from a fresh backend, a
retained message exists for a topic iff the last Publish on that topic with
Retain=true had a non-empty payload; per call, a retained publish with
non-empty payload stores via `retained.Set`, one with empty payload deletes
via `retained.Empty`, and a non-retained publish leaves the store
unchanged. -/
theorem C2_retained_invariant (logins : Option (List (String × String)))
    (ps : List (ClientId × Message)) (t : String) (s : BackendState)
    (c : ClientId) (m : Message) :
    ((retainedAt (runPubs (NewMemoryBackend logins) ps) t).isSome = true ↔
      ∃ mr, specLastRetained ps t = some mr ∧ mr.payload ≠ []) ∧
    (m.retain = true → m.payload ≠ [] →
      (Publish s c m).1.retained = treeSet s.retained m.topic m) ∧
    (m.retain = true → m.payload = [] →
      (Publish s c m).1.retained = treeEmpty s.retained m.topic) ∧
    (m.retain = false → (Publish s c m).1.retained = s.retained) := by
  refine ⟨?_, ?_, ?_, ?_⟩
  · rw [retainedAt_runPubs]
    cases hlast : specLastRetained ps t with
    | none =>
      simp [retainedAt, NewMemoryBackend, alookup]
    | some mr =>
      by_cases hp : mr.payload = [] <;> simp [hp]
  · intro hr hp
    rw [retained_Publish]
    simp [hr, hp]
  · intro hr hp
    rw [retained_Publish]
    simp [hr, hp]
  · intro hr
    rw [retained_Publish]
    simp [hr]

/-- Witness for `C2_retained_invariant` at concrete inputs. -/
theorem C2_retained_invariant_witness :
    ((retainedAt (runPubs (NewMemoryBackend none)
        [(1, ⟨"test", [1], 0, true⟩)]) "test").isSome = true ↔
      ∃ mr, specLastRetained [(1, ⟨"test", [1], 0, true⟩)] "test" = some mr ∧
        mr.payload ≠ []) ∧
    (Publish (NewMemoryBackend none) 1 ⟨"test", [1], 0, true⟩).1.retained =
      treeSet (NewMemoryBackend none).retained "test" ⟨"test", [1], 0, true⟩ ∧
    (Publish (NewMemoryBackend none) 1 ⟨"test", [], 0, true⟩).1.retained =
      treeEmpty (NewMemoryBackend none).retained "test" ∧
    (Publish (NewMemoryBackend none) 1 ⟨"test", [1], 0, false⟩).1.retained =
      (NewMemoryBackend none).retained :=
  ⟨(C2_retained_invariant none [(1, ⟨"test", [1], 0, true⟩)] "test"
      (NewMemoryBackend none) 1 ⟨"test", [1], 0, true⟩).1,
   (C2_retained_invariant none [] "test" (NewMemoryBackend none) 1
      ⟨"test", [1], 0, true⟩).2.1 rfl (by decide),
   (C2_retained_invariant none [] "test" (NewMemoryBackend none) 1
      ⟨"test", [], 0, true⟩).2.2.1 rfl rfl,
   (C2_retained_invariant none [] "test" (NewMemoryBackend none) 1
      ⟨"test", [1], 0, false⟩).2.2.2 rfl⟩

/-- C8: `Setup` with an empty id creates a fresh ephemeral session, returns
it with resumed=false, does not register it in the sessions map, and no
subsequent `Setup` (after any further sequence of backend calls) ever
returns it. -/
theorem C8_anonymous_session (logins : Option (List (String × String)))
    (tr1 tr2 : List Action) (c : ClientId) (clean : Bool)
    (c' : ClientId) (id' : String) (clean' : Bool) :
    (Setup (run (NewMemoryBackend logins) tr1) c "" clean).2.resumed = false ∧
    getSess (Setup (run (NewMemoryBackend logins) tr1) c "" clean).1
      (Setup (run (NewMemoryBackend logins) tr1) c "" clean).2.session =
      NewMemorySession ∧
    (Setup (run (NewMemoryBackend logins) tr1) c "" clean).2.session ∉
      (Setup (run (NewMemoryBackend logins) tr1) c "" clean).1.sessions.map
        Prod.snd ∧
    (Setup (run ((Setup (run (NewMemoryBackend logins) tr1) c "" clean).1) tr2)
        c' id' clean').2.session ≠
      (Setup (run (NewMemoryBackend logins) tr1) c "" clean).2.session := by
  have hsb : ∀ p ∈ (run (NewMemoryBackend logins) tr1).sessions,
      p.2 < (run (NewMemoryBackend logins) tr1).nextRef := by
    refine sbound_run ?_ tr1
    intro p hp
    cases hp
  have hret : (Setup (run (NewMemoryBackend logins) tr1) c "" clean).2.session =
      (run (NewMemoryBackend logins) tr1).nextRef := by
    rw [Setup_anon_eq]
  have hsess2 : (Setup (run (NewMemoryBackend logins) tr1) c "" clean).1.sessions =
      (run (NewMemoryBackend logins) tr1).sessions := by
    rw [Setup_anon_eq]
  have hnext2 : (Setup (run (NewMemoryBackend logins) tr1) c "" clean).1.nextRef =
      (run (NewMemoryBackend logins) tr1).nextRef + 1 := by
    rw [Setup_anon_eq]
  have hnot : (run (NewMemoryBackend logins) tr1).nextRef ∉
      (run (NewMemoryBackend logins) tr1).sessions.map Prod.snd := by
    intro hmem
    rcases List.mem_map.1 hmem with ⟨p, hp, hp2⟩
    have hlt := hsb p hp
    rw [hp2] at hlt
    exact absurd hlt (lt_irrefl _)
  refine ⟨?_, ?_, ?_, ?_⟩
  · rw [Setup_anon_eq]
  · rw [Setup_anon_eq]
    simp [getSess, hget_aset]
  · rw [hret, hsess2]
    exact hnot
  · have hfresh := @fresh_run (run (NewMemoryBackend logins) tr1).nextRef
      ((Setup (run (NewMemoryBackend logins) tr1) c "" clean).1)
      (by rw [hnext2]; exact Nat.lt_succ_self _)
      (by rw [hsess2]; exact hnot) tr2
    rw [hret]
    rcases Setup_session_cases
        (run ((Setup (run (NewMemoryBackend logins) tr1) c "" clean).1) tr2)
        c' id' clean' with hcase | hcase
    · rw [hcase]
      intro heq
      have h1 := hfresh.1
      rw [heq] at h1
      exact absurd h1 (lt_irrefl _)
    · intro heq
      rw [heq] at hcase
      exact hfresh.2 hcase


/-- Witness for `C8_anonymous_session` at concrete inputs. -/
theorem C8_anonymous_session_witness :
    (Setup (run (NewMemoryBackend none) []) 1 "" true).2.resumed = false ∧
    getSess (Setup (run (NewMemoryBackend none) []) 1 "" true).1
      (Setup (run (NewMemoryBackend none) []) 1 "" true).2.session =
      NewMemorySession ∧
    (Setup (run (NewMemoryBackend none) []) 1 "" true).2.session ∉
      (Setup (run (NewMemoryBackend none) []) 1 "" true).1.sessions.map
        Prod.snd ∧
    (Setup (run ((Setup (run (NewMemoryBackend none) []) 1 "" true).1)
        [Action.subscribe 1 "t"]) 2 "y" false).2.session ≠
      (Setup (run (NewMemoryBackend none) []) 1 "" true).2.session :=
  C8_anonymous_session none [] [Action.subscribe 1 "t"] 1 true 2 "y" false

/-- C1 counterexample: the offline-queue membership invariant fails as
stated.  After `staleTerminateTrace` — where the `Terminate` of the evicted
clean-session client 2 runs only after persistent client 3 took the session
over, subscribed at QoS 1 and disconnected — session 0 is still registered
in the offline queue although the delayed `Terminate` has just `Reset()` it:
it holds no subscription with QoS ≥ 1 at all (and the evicted client's
context binds it with clean=true). -/
theorem C1_counterexample :
    (0 : SessionRef) ∈
      treeValues (run (NewMemoryBackend none) staleTerminateTrace).offlineQueue ∧
    ((getSess (run (NewMemoryBackend none) staleTerminateTrace) 0).subscriptions.filter
      (fun sub => 1 ≤ sub.qos)) = [] ∧
    (ctxGet (run (NewMemoryBackend none) staleTerminateTrace) 2).clean =
      some true ∧
    (ctxGet (run (NewMemoryBackend none) staleTerminateTrace) 2).session =
      some 0 := by
  decide

/-- C1 (amended): restricted to call sequences respecting the connection
lifecycle (`goodRun`: one `Setup` per client object, subscription saves and
`Terminate` only while the client still owns its session), every session in
the offline queue is bound with clean=false by some client's context and
holds a subscription with QoS ≥ 1.  Unconditionally per call: `Terminate`
for a clean client registers nothing, `Terminate` for a persistent client
registers the session under exactly its subscriptions with QoS ≥ 1 (never
under a QoS 0 one), and `Setup` resumption removes the session from every
offline-queue position. -/
theorem C1_offline_queue_invariant (logins : Option (List (String × String)))
    (tr : List Action) (s : BackendState) (c : ClientId) (id : String)
    (clean : Bool) (ref : SessionRef) :
    (goodRun (NewMemoryBackend logins) tr = true →
      ∀ r ∈ treeValues (run (NewMemoryBackend logins) tr).offlineQueue,
        (∃ c0 cc0, alookup (run (NewMemoryBackend logins) tr).ctx c0 = some cc0 ∧
          cc0.clean = some false ∧ cc0.session = some r) ∧
        ∃ sub ∈ (getSess (run (NewMemoryBackend logins) tr) r).subscriptions,
          1 ≤ sub.qos) ∧
    ((ctxGet s c).clean = some true →
      (Terminate s c).1.offlineQueue = s.offlineQueue) ∧
    ((ctxGet s c).session = some ref → (ctxGet s c).clean ≠ some true →
      (Terminate s c).1.offlineQueue =
        ((getSess s ref).subscriptions.filter (fun sub => 1 ≤ sub.qos)).foldl
          (fun q sub => treeAdd q sub.topic ref) s.offlineQueue) ∧
    (¬ id = "" → alookup s.sessions id = some ref →
      ref ∉ treeValues ((Setup s c id clean).1).offlineQueue) := by
  refine ⟨?_, ?_, ?_, ?_⟩
  · intro hg r hr
    have hInv := inv_goodRun (inv_init logins) tr hg
    exact ⟨hInv.ovCtx r hr, hInv.ovSub r hr⟩
  · intro hcl
    cases hsx : (ctxGet s c).session with
    | none => rw [Terminate_nosession_eq s c hsx]
    | some ref' => rw [Terminate_clean_eq s c ref' hsx hcl]
  · intro hsx hcl
    rw [Terminate_register_eq s c ref hsx hcl]
    exact foldAdd_filter (getSess s ref).subscriptions s.offlineQueue ref
  · intro hid hf
    rw [Setup_found_eq s c id clean ref hid hf]
    exact not_mem_treeValues_treeClear _ _

/-- Witness for `C1_offline_queue_invariant` at concrete inputs: the
invariant after `offlineTrace` (which really queues session 0), a clean
`Terminate` in `cleanState`, a persistent `Terminate` in `storedState`, and
the offline-queue drain of a resumption in `storedState`. -/
theorem C1_offline_queue_invariant_witness :
    (∀ r ∈ treeValues (run (NewMemoryBackend none) offlineTrace).offlineQueue,
      (∃ c0 cc0, alookup (run (NewMemoryBackend none) offlineTrace).ctx c0 =
          some cc0 ∧ cc0.clean = some false ∧ cc0.session = some r) ∧
      ∃ sub ∈ (getSess (run (NewMemoryBackend none) offlineTrace) r).subscriptions,
        1 ≤ sub.qos) ∧
    (Terminate cleanState 1).1.offlineQueue = cleanState.offlineQueue ∧
    (Terminate storedState 1).1.offlineQueue =
      ((getSess storedState 0).subscriptions.filter (fun sub => 1 ≤ sub.qos)).foldl
        (fun q sub => treeAdd q sub.topic 0) storedState.offlineQueue ∧
    (0 : SessionRef) ∉
      treeValues ((Setup storedState 2 "x" false).1).offlineQueue :=
  ⟨(C1_offline_queue_invariant none offlineTrace cleanState 1 "x" false 0).1
      (by decide),
   (C1_offline_queue_invariant none offlineTrace cleanState 1 "x" false 0).2.1
      (by decide),
   (C1_offline_queue_invariant none offlineTrace storedState 1 "x" false 0).2.2.1
      (by decide) (by decide),
   (C1_offline_queue_invariant none offlineTrace storedState 2 "x" false 0).2.2.2
      (by decide) (by decide)⟩

end Broker
